import Mathlib

/-!
Verification of the thread-grouping, filtering, analysis and document-assembly
core of the g-threader repository, as a shallow embedding in Lean.

The embedding translates the TypeScript/JavaScript sources:
  - `ThreadParser.groupEmailsByThread`, `ThreadParser.filterThreads`,
    `ThreadParser.generateThreadText`, `ThreadParser.extractEmailAddresses`
    (src/utils/threads),
  - `ThreadAnalyzer.analyzeThread`, `ThreadAnalyzer.analyzeThreads`,
    `ThreadAnalyzer.createAnalysisPrompt`, `ThreadAnalyzer.parseAnalysisResponse`
    (src/utils/analysis),
  - the inline document assembly of `generateCourtDocument`
    (src/generate-court-doc.ts).

Modelling conventions:
  - JavaScript strings are Lean `String`s; all operations are implemented on
    `List Char` (the `data` field) so that everything reduces in the kernel.
  - `new Date(s).getTime()` is modelled by a parameter `pd : String → Option Int`;
    `none` stands for `NaN` (an invalid date).  Comparisons follow JS semantics:
    any comparison with `NaN` is false, and a sort comparator that returns `NaN`
    is treated as `0` (ECMAScript `SortCompare`).
  - `Array.prototype.sort` (required to be stable by ECMAScript) is modelled by
    a stable insertion sort `jsSort` over the boolean comparator `cmp a b ≤ 0`.
  - The external OpenAI completion call is a parameter
    `complete : String → Except Unit (Option String)`; `Except.error` stands for
    a thrown error, `Option String` for the possibly-null message content.
-/

namespace GThreader

/-! ## Data model (src/types/index.ts) -/

structure EmailBody where
  plain : Option String
  html : Option String
deriving Repr, DecidableEq

structure Attachment where
  filename : String
  mimeType : String
  data : String
deriving Repr, DecidableEq

structure EmailData where
  id : String
  threadId : String
  subject : String
  fromAddr : String
  toAddr : String
  date : String
  body : EmailBody
  attachments : List Attachment
deriving Repr, DecidableEq

structure EmailThread where
  threadId : String
  subject : String
  participants : List String
  startDate : String
  endDate : String
  messageCount : Nat
  messages : List EmailData
deriving Repr, DecidableEq

structure ThreadAnalysisResult where
  threadId : String
  subject : String
  summary : String
  topics : List String
  relevanceScore : Int
  sentimentScore : Option Int
  keyInsights : List String
deriving Repr, DecidableEq

structure DateRange where
  fromD : Option String
  toD : Option String
deriving Repr, DecidableEq

/-! ## Character-list string operations (models of the JS string primitives) -/

/-- Model of JS `String.prototype.toLowerCase` (ASCII range). -/
def strToLower (s : String) : String := ⟨s.data.map Char.toLower⟩

/-- Model of JS `String.prototype.trim` on a character list. -/
def trimL (l : List Char) : List Char :=
  ((l.dropWhile Char.isWhitespace).reverse.dropWhile Char.isWhitespace).reverse

/-- Model of JS `String.prototype.trim`. -/
def trimStr (s : String) : String := ⟨trimL s.data⟩

/-- Boolean prefix test on character lists. -/
def isPrefixL : List Char → List Char → Bool
  | [], _ => true
  | _ :: _, [] => false
  | a :: as, b :: bs => decide (a = b) && isPrefixL as bs

/-- Boolean substring test on character lists; models JS `String.prototype.includes`. -/
def containsL (pat : List Char) : List Char → Bool
  | [] => pat.isEmpty
  | c :: rest => isPrefixL pat (c :: rest) || containsL pat rest

/-- Substring test on strings: `substrB pat s` holds when `pat` occurs in `s`. -/
def substrB (pat s : String) : Bool := containsL pat.data s.data

/-- Split a character list at every occurrence of the character `c`;
models JS `String.prototype.split` with a single-character separator. -/
def splitOnCharL (c : Char) : List Char → List (List Char)
  | [] => [[]]
  | x :: xs =>
    match splitOnCharL c xs with
    | [] => [[]]
    | h :: t => if x = c then [] :: h :: t else (x :: h) :: t

/-- Split a character list at every whitespace character.  After dropping empty
pieces this agrees with JS `split(/\s+/)` followed by the nonempty filter. -/
def splitWsL : List Char → List (List Char)
  | [] => [[]]
  | x :: xs =>
    match splitWsL xs with
    | [] => [[]]
    | h :: t => if x.isWhitespace then [] :: h :: t else (x :: h) :: t

/-- Model of JS `Array.prototype.join(sep)`. -/
def joinSep (sep : String) : List String → String
  | [] => ""
  | [s] => s
  | s :: rest => s ++ sep ++ joinSep sep rest

/-- Model of JS `parseInt(s, 10)`: skip leading whitespace, optional sign, then
the longest digit prefix; `none` models `NaN` (no digits at all). -/
def jsParseInt (s : String) : Option Int :=
  let l := s.data.dropWhile Char.isWhitespace
  let signArg : Int × List Char :=
    match l with
    | '-' :: t => (-1, t)
    | '+' :: t => (1, t)
    | _ => (1, l)
  let ds := signArg.2.takeWhile Char.isDigit
  if ds.isEmpty then none
  else some (signArg.1 * Int.ofNat (ds.foldl (fun n c => n * 10 + (c.toNat - '0'.toNat)) 0))

/-- Truthiness of an optional JS string (`undefined` and `""` are falsy). -/
def strTruthy : Option String → Bool
  | some s => !(decide (s = ""))
  | none => false

/-! ## The JS stable sort

`Array.prototype.sort(cmp)` with a consistent comparator produces the unique
stable sorted permutation (ECMAScript requires a stable sort); we model it by a
stable insertion sort over the boolean relation `le a b ↔ cmp a b ≤ 0`,
where a comparator result of `NaN` counts as `0` (ECMAScript `SortCompare`). -/

def jsInsert (le : α → α → Bool) (a : α) : List α → List α
  | [] => [a]
  | b :: l => if le a b then a :: b :: l else b :: jsInsert le a l

def jsSort (le : α → α → Bool) : List α → List α
  | [] => []
  | a :: l => jsInsert le a (jsSort le l)

theorem jsInsert_perm (le : α → α → Bool) (a : α) (l : List α) :
    (jsInsert le a l).Perm (a :: l) := by
  induction l with
  | nil => simp [jsInsert]
  | cons b t ih =>
    by_cases h : le a b = true
    · simp [jsInsert, h]
    · simp only [jsInsert, h]
      simp only [Bool.false_eq_true, if_false]
      exact (ih.cons b).trans (List.Perm.swap a b t)

theorem jsSort_perm (le : α → α → Bool) (l : List α) : (jsSort le l).Perm l := by
  induction l with
  | nil => simp [jsSort]
  | cons a t ih => exact (jsInsert_perm le a (jsSort le t)).trans (ih.cons a)

theorem mem_jsInsert {le : α → α → Bool} {a x : α} {l : List α} :
    x ∈ jsInsert le a l ↔ x = a ∨ x ∈ l := by
  rw [(jsInsert_perm le a l).mem_iff]
  simp

theorem mem_jsSort {le : α → α → Bool} {x : α} {l : List α} :
    x ∈ jsSort le l ↔ x ∈ l := (jsSort_perm le l).mem_iff

theorem pairwise_jsInsert (le : α → α → Bool) (a : α) (l : List α)
    (htot : ∀ b ∈ l, le a b = true ∨ le b a = true)
    (htrans : ∀ b ∈ l, ∀ c ∈ l, le a b = true → le b c = true → le a c = true)
    (hp : l.Pairwise (fun x y => le x y = true)) :
    (jsInsert le a l).Pairwise (fun x y => le x y = true) := by
  induction l with
  | nil => simp [jsInsert]
  | cons b t ih =>
    rcases List.pairwise_cons.mp hp with ⟨hb, ht⟩
    by_cases h : le a b = true
    · simp only [jsInsert, h, if_true]
      refine List.pairwise_cons.mpr ⟨?_, hp⟩
      intro y hy
      rcases List.mem_cons.mp hy with rfl | hyt
      · exact h
      · exact htrans b (List.mem_cons_self b t) y (List.mem_cons_of_mem b hyt) h (hb y hyt)
    · simp only [jsInsert, h]
      simp only [Bool.false_eq_true, if_false]
      refine List.pairwise_cons.mpr ⟨?_, ?_⟩
      · intro y hy
        rcases mem_jsInsert.mp hy with rfl | hyt
        · rcases htot b (List.mem_cons_self b t) with hab | hba
          · exact absurd hab h
          · exact hba
        · exact hb y hyt
      · exact ih (fun c hc => htot c (List.mem_cons_of_mem b hc))
          (fun c hc d hd => htrans c (List.mem_cons_of_mem b hc) d (List.mem_cons_of_mem b hd))
          ht

theorem pairwise_jsSort (le : α → α → Bool) (l : List α)
    (htot : ∀ a ∈ l, ∀ b ∈ l, le a b = true ∨ le b a = true)
    (htrans : ∀ a ∈ l, ∀ b ∈ l, ∀ c ∈ l, le a b = true → le b c = true → le a c = true) :
    (jsSort le l).Pairwise (fun x y => le x y = true) := by
  induction l with
  | nil => simp [jsSort]
  | cons a t ih =>
    have hmem : ∀ x ∈ jsSort le t, x ∈ t := fun x hx => mem_jsSort.mp hx
    refine pairwise_jsInsert le a (jsSort le t) ?_ ?_ ?_
    · intro b hb
      exact htot a (List.mem_cons_self a t) b (List.mem_cons_of_mem a (hmem b hb))
    · intro b hb c hc
      exact htrans a (List.mem_cons_self a t) b (List.mem_cons_of_mem a (hmem b hb))
        c (List.mem_cons_of_mem a (hmem c hc))
    · exact ih (fun x hx y hy => htot x (List.mem_cons_of_mem a hx) y (List.mem_cons_of_mem a hy))
        (fun x hx y hy z hz => htrans x (List.mem_cons_of_mem a hx) y (List.mem_cons_of_mem a hy)
          z (List.mem_cons_of_mem a hz))

/-! ## Address extraction (`ThreadParser.extractEmailAddresses`)

The source scans the input with the global regex `/[\w.-]+@[\w.-]+\.\w+/g` and
returns all non-overlapping matches left to right.  We implement the same
leftmost, greedy-with-backtracking matching on character lists. -/

/-- JS regex `\w`: ASCII word character. -/
def isWordChar (c : Char) : Bool := c.isAlphanum || decide (c = '_')

/-- JS regex `[\w.-]`: word character, dot or hyphen. -/
def isAddrChar (c : Char) : Bool := isWordChar c || decide (c = '.') || decide (c = '-')

/-- Largest backtracking split point for the domain part: the largest `t ≥ 1`
with `r[t] = '.'` and `r[t+1]` a word character (greedy `[\w.-]+` gives back as
little as possible before the final `\.\w+`). -/
def bestDot (r : List Char) : Option Nat :=
  (List.range r.length).reverse.find? fun t =>
    decide (1 ≤ t) && decide (r.getD t ' ' = '.') && isWordChar (r.getD (t + 1) ' ')

/-- Try to match `[\w.-]+@[\w.-]+\.\w+` at the head of `l`.  On success returns
the matched characters and the remainder of the input after the match. -/
def matchEmailAt (l : List Char) : Option (List Char × List Char) :=
  let r1 := l.takeWhile isAddrChar
  if r1.isEmpty then none
  else
    match l.dropWhile isAddrChar with
    | '@' :: rest2 =>
      let r2 := rest2.takeWhile isAddrChar
      let rest3 := rest2.dropWhile isAddrChar
      match bestDot r2 with
      | some t =>
        let w := (r2.drop (t + 1)).takeWhile isWordChar
        let leftover := (r2.drop (t + 1)).dropWhile isWordChar
        some (r1 ++ '@' :: (r2.take t ++ '.' :: w), leftover ++ rest3)
      | none => none
    | _ => none

/-- Scan for all non-overlapping matches, restarting one character further on
failure, as the JS global-regex loop does.  `fuel` bounds the recursion; every
step consumes at least one character, so `l.length` fuel is always enough. -/
def scanEmailsGo : Nat → List Char → List (List Char)
  | 0, _ => []
  | _ + 1, [] => []
  | fuel + 1, c :: l =>
    match matchEmailAt (c :: l) with
    | some (m, rest) => m :: scanEmailsGo fuel rest
    | none => scanEmailsGo fuel l

/-- Model of `ThreadParser.extractEmailAddresses` (src/utils/threads). -/
def extractEmailAddresses (input : String) : List String :=
  if input = "" then []
  else (scanEmailsGo input.data.length input.data).map fun cs => ⟨cs⟩

/-! ## Ordered de-duplicating insertion (JS `Set` / `Map` key behaviour) -/

/-- Append `k` to `ks` unless already present: insertion into a JS `Set` (or a
new key into a JS `Map`), which both preserve first-insertion order. -/
def insertKey [DecidableEq α] (ks : List α) (k : α) : List α :=
  if k ∈ ks then ks else ks ++ [k]

theorem mem_insertKey [DecidableEq α] {ks : List α} {k x : α} :
    x ∈ insertKey ks k ↔ x ∈ ks ∨ x = k := by
  unfold insertKey
  split
  · rename_i hk
    constructor
    · exact Or.inl
    · rintro (hx | rfl)
      · exact hx
      · exact hk
  · simp

theorem nodup_insertKey [DecidableEq α] {ks : List α} (k : α) (h : ks.Nodup) :
    (insertKey ks k).Nodup := by
  unfold insertKey
  split
  · exact h
  · rename_i hk
    simp [List.nodup_append, h, hk]

theorem mem_foldl_insertKey [DecidableEq α] (f : β → α) (l : List β) (init : List α) (x : α) :
    x ∈ l.foldl (fun ks e => insertKey ks (f e)) init ↔ x ∈ init ∨ ∃ e ∈ l, f e = x := by
  induction l generalizing init with
  | nil => simp
  | cons e t ih =>
    rw [List.foldl_cons, ih]
    rw [mem_insertKey]
    constructor
    · rintro ((hx | hx) | ⟨e', he', rfl⟩)
      · exact Or.inl hx
      · exact Or.inr ⟨e, List.mem_cons_self e t, hx.symm⟩
      · exact Or.inr ⟨e', List.mem_cons_of_mem e he', rfl⟩
    · rintro (hx | ⟨e', he', rfl⟩)
      · exact Or.inl (Or.inl hx)
      · rcases List.mem_cons.mp he' with rfl | he'
        · exact Or.inl (Or.inr rfl)
        · exact Or.inr ⟨e', he', rfl⟩

theorem nodup_foldl_insertKey [DecidableEq α] (f : β → α) (l : List β) (init : List α)
    (h : init.Nodup) : (l.foldl (fun ks e => insertKey ks (f e)) init).Nodup := by
  induction l generalizing init with
  | nil => exact h
  | cons e t ih => exact ih _ (nodup_insertKey _ h)

/-! ## Date comparators (JS `new Date(...)` comparisons)

`pd : String → Option Int` models `s => new Date(s).getTime()`, with `none`
for `NaN`.  `dateLtB`/`dateGtB` model `<`/`>` on dates (false when either side
is `NaN`); `msgDateLeB`/`threadEndGeB` model the sort comparators
`(a, b) => time(a) - time(b) ≤ 0` with a `NaN` result treated as `0`. -/

def dateLtB (pd : String → Option Int) (a b : String) : Bool :=
  match pd a, pd b with
  | some x, some y => decide (x < y)
  | _, _ => false

def dateGtB (pd : String → Option Int) (a b : String) : Bool :=
  match pd a, pd b with
  | some x, some y => decide (y < x)
  | _, _ => false

/-- Message comparator of `groupEmailsByThread`:
`(a, b) => new Date(a.date).getTime() - new Date(b.date).getTime()` as a
boolean `cmp ≤ 0` relation, with a `NaN` difference treated as `0`. -/
def msgDateLeB (pd : String → Option Int) (a b : EmailData) : Bool :=
  match pd a.date, pd b.date with
  | some x, some y => decide (x ≤ y)
  | _, _ => true

/-- Thread comparator of `groupEmailsByThread`:
`(a, b) => new Date(b.endDate).getTime() - new Date(a.endDate).getTime()`
as a boolean `cmp ≤ 0` relation (descending by `endDate`). -/
def threadEndGeB (pd : String → Option Int) (a b : EmailThread) : Bool :=
  match pd a.endDate, pd b.endDate with
  | some x, some y => decide (y ≤ x)
  | _, _ => true

/-- Ascending order on parsed dates: both sides parse and are ordered.  Used to
state sortedness "by parsed date". -/
def parsedLe (pd : String → Option Int) (d₁ d₂ : String) : Prop :=
  ∃ x y, pd d₁ = some x ∧ pd d₂ = some y ∧ x ≤ y

/-! ## Thread grouping (`ThreadParser.groupEmailsByThread`) -/

/-- Fallback record; never reached on the nonempty groups the grouping builds
(JS would throw on `messages[0]` of an empty group, which cannot occur). -/
def dfltEmail : EmailData :=
  { id := "", threadId := "", subject := "", fromAddr := "", toAddr := "", date := ""
    body := { plain := none, html := none }, attachments := [] }

/-- Add the addresses extracted from the `from` and `to` headers of one message to
the accumulated participant list, de-duplicating in insertion order. -/
def addAddrs (acc : List String) (m : EmailData) : List String :=
  (extractEmailAddresses m.toAddr).foldl insertKey
    ((extractEmailAddresses m.fromAddr).foldl insertKey acc)

/-- Build the `EmailThread` value for one group of messages sharing a
`threadId`, exactly as the body of the `threadMap.forEach` does: sort by date,
collect participants, and read the aggregates off the sorted list. -/
def mkThread (pd : String → Option Int) (tid : String) (msgs : List EmailData) : EmailThread :=
  let sorted := jsSort (msgDateLeB pd) msgs
  { threadId := tid
    subject := (sorted.headD dfltEmail).subject
    participants := sorted.foldl addAddrs []
    startDate := (sorted.headD dfltEmail).date
    endDate := (sorted.getLastD dfltEmail).date
    messageCount := sorted.length
    messages := sorted }

/-- Model of `ThreadParser.groupEmailsByThread`: group by `threadId` (map keys
in first-encounter order, each group in input order), build each thread, then
sort threads descending by `endDate`. -/
def groupEmailsByThread (pd : String → Option Int) (emails : List EmailData) :
    List EmailThread :=
  jsSort (threadEndGeB pd)
    ((emails.foldl (fun ks e => insertKey ks e.threadId) []).map fun k =>
      mkThread pd k (emails.filter fun e => decide (e.threadId = k)))

@[simp] theorem mkThread_threadId (pd tid msgs) : (mkThread pd tid msgs).threadId = tid := rfl

@[simp] theorem mkThread_messages (pd tid msgs) :
    (mkThread pd tid msgs).messages = jsSort (msgDateLeB pd) msgs := rfl

@[simp] theorem mkThread_messageCount (pd tid msgs) :
    (mkThread pd tid msgs).messageCount = (jsSort (msgDateLeB pd) msgs).length := rfl

@[simp] theorem mkThread_participants (pd tid msgs) :
    (mkThread pd tid msgs).participants = (jsSort (msgDateLeB pd) msgs).foldl addAddrs [] := rfl

@[simp] theorem mkThread_subject (pd tid msgs) :
    (mkThread pd tid msgs).subject = ((jsSort (msgDateLeB pd) msgs).headD dfltEmail).subject := rfl

@[simp] theorem mkThread_startDate (pd tid msgs) :
    (mkThread pd tid msgs).startDate = ((jsSort (msgDateLeB pd) msgs).headD dfltEmail).date := rfl

@[simp] theorem mkThread_endDate (pd tid msgs) :
    (mkThread pd tid msgs).endDate = ((jsSort (msgDateLeB pd) msgs).getLastD dfltEmail).date := rfl

/-! ## Partition lemma: concatenating the per-key filters recovers the input -/

theorem flatten_filter_perm [DecidableEq κ] (f : α → κ) (keys : List κ) :
    ∀ l : List α, keys.Nodup → (∀ a ∈ l, f a ∈ keys) →
      ((keys.map fun k => l.filter fun a => decide (f a = k)).flatten).Perm l := by
  induction keys with
  | nil =>
    intro l _ h
    cases l with
    | nil => simp
    | cons a t => exact absurd (h a (List.mem_cons_self a t)) (List.not_mem_nil (f a))
  | cons k ks ih =>
    intro l hnd h
    have hknotin : k ∉ ks := (List.nodup_cons.mp hnd).1
    have hndks : ks.Nodup := (List.nodup_cons.mp hnd).2
    have hne : ∀ j ∈ ks, j ≠ k := fun j hj hjk => hknotin (hjk ▸ hj)
    have hstep : ∀ j ∈ ks,
        (l.filter fun a => decide (f a = j))
          = (l.filter fun a => !decide (f a = k)).filter fun a => decide (f a = j) := by
      intro j hj
      rw [List.filter_filter]
      apply List.filter_congr
      intro a _
      by_cases hfa : f a = j
      · have hfk : ¬ f a = k := fun hk0 => (hne j hj) (by rw [← hfa, hk0])
        simp [hfa, hfk, hne j hj]
      · simp [hfa]
    have hmapeq : (ks.map fun j => l.filter fun a => decide (f a = j))
        = ks.map fun j => (l.filter fun a => !decide (f a = k)).filter
            fun a => decide (f a = j) := List.map_congr_left hstep
    have hih : ((ks.map fun j => (l.filter fun a => !decide (f a = k)).filter
          fun a => decide (f a = j)).flatten).Perm (l.filter fun a => !decide (f a = k)) := by
      apply ih _ hndks
      intro a ha
      rcases List.mem_filter.mp ha with ⟨hal, hak⟩
      rcases List.mem_cons.mp (h a hal) with hk0 | hks
      · exact absurd hk0 (by simpa using hak)
      · exact hks
    refine List.Perm.trans ?_ (List.filter_append_perm (fun a => decide (f a = k)) l)
    have hflat : ((k :: ks).map fun k' => l.filter fun a => decide (f a = k')).flatten
        = (l.filter fun a => decide (f a = k))
            ++ (ks.map fun j => l.filter fun a => decide (f a = j)).flatten := by simp
    rw [hflat, hmapeq]
    exact hih.append_left _

/-! ## Claim C1 -/

/-- Claim C1: `groupEmailsByThread` partitions its input by `threadId` without
dropping or duplicating any record.  Output thread ids are pairwise distinct;
every message sits in the thread carrying its own `threadId`; the
message list of each thread is a permutation of exactly the input records with that
`threadId`; `messageCount` is the length of `messages`; and the message counts
sum to the input length. -/
theorem groupEmailsByThread_partitions (pd : String → Option Int) (emails : List EmailData) :
      ((groupEmailsByThread pd emails).map (·.threadId)).Nodup
    ∧ (∀ t ∈ groupEmailsByThread pd emails, ∀ m ∈ t.messages, m.threadId = t.threadId)
    ∧ (∀ t ∈ groupEmailsByThread pd emails,
        t.messages.Perm (emails.filter fun e => decide (e.threadId = t.threadId)))
    ∧ (∀ t ∈ groupEmailsByThread pd emails, t.messageCount = t.messages.length)
    ∧ ((groupEmailsByThread pd emails).map (·.messageCount)).sum = emails.length := by
  have hperm : (groupEmailsByThread pd emails).Perm
      ((emails.foldl (fun ks e => insertKey ks e.threadId) []).map fun k =>
        mkThread pd k (emails.filter fun e => decide (e.threadId = k))) := jsSort_perm _ _
  have hkeysmem : ∀ x, x ∈ emails.foldl (fun ks e => insertKey ks e.threadId) [] ↔
      ∃ e ∈ emails, e.threadId = x := by
    intro x
    simpa using mem_foldl_insertKey (·.threadId) emails [] x
  have hkeysnodup : (emails.foldl (fun ks e => insertKey ks e.threadId) []).Nodup :=
    nodup_foldl_insertKey _ _ _ (by simp)
  have hmapped_tid :
      (((emails.foldl (fun ks e => insertKey ks e.threadId) []).map fun k =>
        mkThread pd k (emails.filter fun e => decide (e.threadId = k))).map (·.threadId))
      = emails.foldl (fun ks e => insertKey ks e.threadId) [] := by
    rw [List.map_map]
    simp [Function.comp_def]
  refine ⟨?_, ?_, ?_, ?_, ?_⟩
  · rw [(hperm.map (·.threadId)).nodup_iff, hmapped_tid]
    exact hkeysnodup
  · intro t ht m hm
    rcases List.mem_map.mp (hperm.mem_iff.mp ht) with ⟨k, _, rfl⟩
    rw [mkThread_messages] at hm
    have hmf := mem_jsSort.mp hm
    rcases List.mem_filter.mp hmf with ⟨_, hEq⟩
    simpa [mkThread_threadId] using of_decide_eq_true hEq
  · intro t ht
    rcases List.mem_map.mp (hperm.mem_iff.mp ht) with ⟨k, _, rfl⟩
    rw [mkThread_messages, mkThread_threadId]
    exact jsSort_perm _ _
  · intro t ht
    rcases List.mem_map.mp (hperm.mem_iff.mp ht) with ⟨k, _, rfl⟩
    rw [mkThread_messages, mkThread_messageCount]
  · have h1 := (hperm.map (·.messageCount)).sum_eq
    rw [h1, List.map_map]
    have h2 : ((emails.foldl (fun ks e => insertKey ks e.threadId) []).map
          ((·.messageCount) ∘ fun k => mkThread pd k (emails.filter fun e => decide (e.threadId = k))))
        = (emails.foldl (fun ks e => insertKey ks e.threadId) []).map
            fun k => (emails.filter fun e => decide (e.threadId = k)).length := by
      apply List.map_congr_left
      intro k _
      simp [Function.comp, mkThread_messageCount, (jsSort_perm (msgDateLeB pd) _).length_eq]
    rw [h2]
    have h3 : (((emails.foldl (fun ks e => insertKey ks e.threadId) []).map
          fun k => emails.filter fun e => decide (e.threadId = k)).flatten).Perm emails :=
      flatten_filter_perm (·.threadId) _ emails hkeysnodup
        (fun a ha => (hkeysmem a.threadId).mpr ⟨a, ha, rfl⟩)
    have h4 := h3.length_eq
    rw [List.length_flatten, List.map_map] at h4
    simpa [Function.comp_def] using h4

/-! ## Helper lemmas for the thread invariants -/

theorem getLastD_eq_getLast (l : List α) (d : α) (h : l ≠ []) : l.getLastD d = l.getLast h := by
  rw [List.getLastD_eq_getLast?, List.getLast?_eq_getLast l h]
  rfl

theorem getLast?_eq_some_getLastD (l : List α) (d : α) (h : l ≠ []) :
    l.getLast? = some (l.getLastD d) := by
  rw [getLastD_eq_getLast l d h]
  exact List.getLast?_eq_getLast l h

theorem getLastD_mem (l : List α) (d : α) (h : l ≠ []) : l.getLastD d ∈ l := by
  rw [getLastD_eq_getLast l d h]
  exact List.getLast_mem h

theorem mem_groupKeys (emails : List EmailData) (x : String) :
    x ∈ emails.foldl (fun ks e => insertKey ks e.threadId) [] ↔
      ∃ e ∈ emails, e.threadId = x := by
  simpa using mem_foldl_insertKey (·.threadId) emails [] x

theorem mem_foldl_insertKey' [DecidableEq α] (l : List α) (init : List α) (x : α) :
    x ∈ l.foldl insertKey init ↔ x ∈ init ∨ x ∈ l := by
  induction l generalizing init with
  | nil => simp
  | cons e t ih =>
    rw [List.foldl_cons, ih, mem_insertKey]
    constructor
    · rintro ((hx | rfl) | hx)
      · exact Or.inl hx
      · exact Or.inr (List.mem_cons_self x t)
      · exact Or.inr (List.mem_cons_of_mem e hx)
    · rintro (hx | hx)
      · exact Or.inl (Or.inl hx)
      · rcases List.mem_cons.mp hx with rfl | hx
        · exact Or.inl (Or.inr rfl)
        · exact Or.inr hx

theorem nodup_foldl_insertKey' [DecidableEq α] (l : List α) (init : List α)
    (h : init.Nodup) : (l.foldl insertKey init).Nodup := by
  induction l generalizing init with
  | nil => exact h
  | cons e t ih => exact ih _ (nodup_insertKey _ h)

theorem mem_addAddrs {acc : List String} {m : EmailData} {x : String} :
    x ∈ addAddrs acc m ↔
      x ∈ acc ∨ x ∈ extractEmailAddresses m.fromAddr ∨ x ∈ extractEmailAddresses m.toAddr := by
  unfold addAddrs
  rw [mem_foldl_insertKey', mem_foldl_insertKey']
  simp [or_assoc]

theorem mem_foldl_addAddrs (l : List EmailData) (init : List String) (x : String) :
    x ∈ l.foldl addAddrs init ↔
      x ∈ init ∨ ∃ m ∈ l, x ∈ extractEmailAddresses m.fromAddr
        ∨ x ∈ extractEmailAddresses m.toAddr := by
  induction l generalizing init with
  | nil => simp
  | cons m t ih =>
    rw [List.foldl_cons, ih, mem_addAddrs]
    constructor
    · rintro ((hx | hm) | ⟨m', hm', hx⟩)
      · exact Or.inl hx
      · exact Or.inr ⟨m, List.mem_cons_self m t, hm⟩
      · exact Or.inr ⟨m', List.mem_cons_of_mem m hm', hx⟩
    · rintro (hx | ⟨m', hm', hx⟩)
      · exact Or.inl (Or.inl hx)
      · rcases List.mem_cons.mp hm' with rfl | hm'
        · exact Or.inl (Or.inr hx)
        · exact Or.inr ⟨m', hm', hx⟩

theorem nodup_foldl_addAddrs (l : List EmailData) (init : List String) (h : init.Nodup) :
    (l.foldl addAddrs init).Nodup := by
  induction l generalizing init with
  | nil => exact h
  | cons m t ih =>
    exact ih _ (nodup_foldl_insertKey' _ _ (nodup_foldl_insertKey' _ _ h))

/-! ## Claim C2 -/

/-- Claim C2: under a date parser that succeeds on every input record (the
premise of "sorted by parsed date"), every thread built by
`groupEmailsByThread` satisfies the Thread invariant: messages ascending by
parsed date; `startDate`/`subject` from the chronologically first message;
`endDate` from the last; `participants` the de-duplicated union of the
addresses extracted from the `from` and `to` headers of all messages; and the thread
list itself descending by parsed `endDate`. -/
theorem groupEmailsByThread_invariants (pd : String → Option Int) (emails : List EmailData)
    (hdates : ∀ e ∈ emails, (pd e.date).isSome = true) :
      (∀ t ∈ groupEmailsByThread pd emails,
          t.messages.Pairwise (fun m₁ m₂ => parsedLe pd m₁.date m₂.date)
        ∧ t.messages.head?.map (·.date) = some t.startDate
        ∧ t.messages.getLast?.map (·.date) = some t.endDate
        ∧ t.messages.head?.map (·.subject) = some t.subject
        ∧ t.participants.Nodup
        ∧ (∀ p, p ∈ t.participants ↔ ∃ m ∈ t.messages,
            p ∈ extractEmailAddresses m.fromAddr ∨ p ∈ extractEmailAddresses m.toAddr))
    ∧ (groupEmailsByThread pd emails).Pairwise
        (fun t₁ t₂ => parsedLe pd t₂.endDate t₁.endDate) := by
  have hperm : (groupEmailsByThread pd emails).Perm
      ((emails.foldl (fun ks e => insertKey ks e.threadId) []).map fun k =>
        mkThread pd k (emails.filter fun e => decide (e.threadId = k))) := jsSort_perm _ _
  -- every group a key picks out is a nonempty sublist of `emails`
  have hgroup_ne : ∀ k ∈ emails.foldl (fun ks e => insertKey ks e.threadId) [],
      (emails.filter fun e => decide (e.threadId = k)) ≠ [] := by
    intro k hk
    rcases (mem_groupKeys emails k).mp hk with ⟨e, he, hek⟩
    exact List.ne_nil_of_mem (List.mem_filter.mpr ⟨he, by simp [hek]⟩)
  have hsorted_ne : ∀ k ∈ emails.foldl (fun ks e => insertKey ks e.threadId) [],
      jsSort (msgDateLeB pd) (emails.filter fun e => decide (e.threadId = k)) ≠ [] := by
    intro k hk h0
    have hp := jsSort_perm (msgDateLeB pd) (emails.filter fun e => decide (e.threadId = k))
    rw [h0] at hp
    exact hgroup_ne k hk (hp.symm.eq_nil)
  have hsorted_dates : ∀ (k : String),
      ∀ m ∈ jsSort (msgDateLeB pd) (emails.filter fun e => decide (e.threadId = k)),
        (pd m.date).isSome = true := by
    intro k m hm
    exact hdates m (List.mem_of_mem_filter (mem_jsSort.mp hm))
  constructor
  · intro t ht
    rcases List.mem_map.mp (hperm.mem_iff.mp ht) with ⟨k, hk, rfl⟩
    have hne := hsorted_ne k hk
    have hdts := hsorted_dates k
    refine ⟨?_, ?_, ?_, ?_, ?_, ?_⟩
    · -- messages ascending by parsed date
      rw [mkThread_messages]
      have hpw := pairwise_jsSort (msgDateLeB pd)
        (emails.filter fun e => decide (e.threadId = k))
        (by
          intro a ha b hb
          rcases Option.isSome_iff_exists.mp (hdates a (List.mem_of_mem_filter ha)) with ⟨x, hx⟩
          rcases Option.isSome_iff_exists.mp (hdates b (List.mem_of_mem_filter hb)) with ⟨y, hy⟩
          rcases le_total x y with hxy | hyx
          · exact Or.inl (by simp [msgDateLeB, hx, hy, hxy])
          · exact Or.inr (by simp [msgDateLeB, hx, hy, hyx]))
        (by
          intro a ha b hb c hc hab hbc
          rcases Option.isSome_iff_exists.mp (hdates a (List.mem_of_mem_filter ha)) with ⟨x, hx⟩
          rcases Option.isSome_iff_exists.mp (hdates b (List.mem_of_mem_filter hb)) with ⟨y, hy⟩
          rcases Option.isSome_iff_exists.mp (hdates c (List.mem_of_mem_filter hc)) with ⟨z, hz⟩
          rw [msgDateLeB, hx, hy] at hab
          rw [msgDateLeB, hy, hz] at hbc
          rw [msgDateLeB, hx, hz]
          exact decide_eq_true (le_trans (of_decide_eq_true hab) (of_decide_eq_true hbc)))
      refine hpw.imp_of_mem ?_
      intro a b ha hb hab
      rcases Option.isSome_iff_exists.mp (hdts a ha) with ⟨x, hx⟩
      rcases Option.isSome_iff_exists.mp (hdts b hb) with ⟨y, hy⟩
      rw [msgDateLeB, hx, hy] at hab
      exact ⟨x, y, hx, hy, of_decide_eq_true hab⟩
    · -- startDate is the date of the first message
      rw [mkThread_messages, mkThread_startDate, List.headD_eq_head?]
      rcases List.exists_cons_of_ne_nil hne with ⟨m0, rest, hcons⟩
      rw [hcons]
      simp
    · -- endDate is the date of the last message
      rw [mkThread_messages, mkThread_endDate,
        getLast?_eq_some_getLastD _ dfltEmail hne]
      simp
    · -- subject is the subject of the first message
      rw [mkThread_messages, mkThread_subject, List.headD_eq_head?]
      rcases List.exists_cons_of_ne_nil hne with ⟨m0, rest, hcons⟩
      rw [hcons]
      simp
    · -- participants are de-duplicated
      rw [mkThread_participants]
      exact nodup_foldl_addAddrs _ _ (by simp)
    · -- participants are exactly the union of the extracted addresses
      intro p
      rw [mkThread_participants, mkThread_messages, mem_foldl_addAddrs]
      simp
  · -- the thread list is descending by parsed endDate
    have hend_some : ∀ t ∈ (emails.foldl (fun ks e => insertKey ks e.threadId) []).map
        (fun k => mkThread pd k (emails.filter fun e => decide (e.threadId = k))),
        (pd t.endDate).isSome = true := by
      intro t ht
      rcases List.mem_map.mp ht with ⟨k, hk, rfl⟩
      rw [mkThread_endDate]
      exact hsorted_dates k _ (getLastD_mem _ dfltEmail (hsorted_ne k hk))
    have hpw := pairwise_jsSort (threadEndGeB pd)
      ((emails.foldl (fun ks e => insertKey ks e.threadId) []).map fun k =>
        mkThread pd k (emails.filter fun e => decide (e.threadId = k)))
      (by
        intro a ha b hb
        rcases Option.isSome_iff_exists.mp (hend_some a ha) with ⟨x, hx⟩
        rcases Option.isSome_iff_exists.mp (hend_some b hb) with ⟨y, hy⟩
        rcases le_total y x with hxy | hyx
        · exact Or.inl (by simp [threadEndGeB, hx, hy, hxy])
        · exact Or.inr (by simp [threadEndGeB, hx, hy, hyx]))
      (by
        intro a ha b hb c hc hab hbc
        rcases Option.isSome_iff_exists.mp (hend_some a ha) with ⟨x, hx⟩
        rcases Option.isSome_iff_exists.mp (hend_some b hb) with ⟨y, hy⟩
        rcases Option.isSome_iff_exists.mp (hend_some c hc) with ⟨z, hz⟩
        rw [threadEndGeB, hx, hy] at hab
        rw [threadEndGeB, hy, hz] at hbc
        rw [threadEndGeB, hx, hz]
        exact decide_eq_true (le_trans (of_decide_eq_true hbc) (of_decide_eq_true hab)))
    refine hpw.imp_of_mem ?_
    intro a b ha hb hab
    have ha' := hend_some a (mem_jsSort.mp ha)
    have hb' := hend_some b (mem_jsSort.mp hb)
    rcases Option.isSome_iff_exists.mp ha' with ⟨x, hx⟩
    rcases Option.isSome_iff_exists.mp hb' with ⟨y, hy⟩
    rw [threadEndGeB, hx, hy] at hab
    exact ⟨y, x, hy, hx, of_decide_eq_true hab⟩

/-! ## Substring test lemmas -/

theorem isPrefixL_iff : ∀ p l : List Char, isPrefixL p l = true ↔ p <+: l
  | [], l => by simp [isPrefixL]
  | a :: as, [] => by simp [isPrefixL]
  | a :: as, b :: bs => by
    simp only [isPrefixL, Bool.and_eq_true, decide_eq_true_eq]
    rw [isPrefixL_iff as bs]
    exact (List.cons_prefix_cons).symm

theorem containsL_iff : ∀ p l : List Char, containsL p l = true ↔ p <:+: l
  | p, [] => by
    simp only [containsL, List.isEmpty_iff]
    constructor
    · rintro rfl
      exact List.infix_refl []
    · intro h
      exact List.eq_nil_of_infix_nil h
  | p, c :: rest => by
    simp only [containsL, Bool.or_eq_true]
    rw [isPrefixL_iff, containsL_iff p rest]
    exact (List.infix_cons_iff).symm

/-! ## Thread filtering (`ThreadParser.filterThreads`) -/

/-- Query terms: the query lower-cased, split on whitespace, empty pieces
dropped — `query.toLowerCase().split(/\s+/).filter(term => term.length > 0)`. -/
def queryTermsL (query : String) : List (List Char) :=
  (splitWsL (strToLower query).data).filter fun t => decide (t ≠ [])

/-- The searchable text of one message:
`` `${subject} ${from} ${to} ${body.plain || ''}`.toLowerCase() `` —
note the single spaces the template literal inserts between the fields. -/
def searchTextL (m : EmailData) : List Char :=
  (m.subject.data ++ ' ' :: m.fromAddr.data ++ ' ' :: m.toAddr.data
    ++ ' ' :: (m.body.plain.getD "").data).map Char.toLower

/-- Date-range test of `filterThreads`: excluded when `endDate` is before the
window start or `startDate` is after the window end (each only when given). -/
def datePassB (pd : String → Option Int) (dr : Option DateRange) (t : EmailThread) : Bool :=
  match dr with
  | none => true
  | some r =>
    !((match r.fromD with
       | some f => dateLtB pd t.endDate f
       | none => false)
      || (match r.toD with
          | some g => dateGtB pd t.startDate g
          | none => false))

/-- Participant test of `filterThreads`: when a nonempty participant list is
given, some thread participant must case-insensitively contain some given
participant substring. -/
def participantsPassB (ps : Option (List String)) (t : EmailThread) : Bool :=
  match ps with
  | none => true
  | some l =>
    if l.isEmpty then true
    else l.any fun p => t.participants.any fun tp =>
      containsL (strToLower p).data (strToLower tp).data

/-- Content test of `filterThreads`: with at least one query term, some single
message must contain every term in its searchable text. -/
def contentPassB (terms : List (List Char)) (t : EmailThread) : Bool :=
  if terms.isEmpty then true
  else t.messages.any fun m => terms.all fun term => containsL term (searchTextL m)

/-- Model of `ThreadParser.filterThreads` (src/utils/threads). -/
def filterThreads (pd : String → Option Int) (threads : List EmailThread) (query : String)
    (minMessages : Nat) (dr : Option DateRange) (ps : Option (List String)) :
    List EmailThread :=
  threads.filter fun t =>
    decide (minMessages ≤ t.messageCount) && datePassB pd dr t && participantsPassB ps t
      && contentPassB (queryTermsL query) t

/-! ## Claim C3 -/

/-- Retention predicate as claim C3 literally states it: the content rule reads
the query terms against the plain concatenation `subject + from + to +
plainBody` (no separators), lower-cased. -/
def RetainClaimC3 (pd : String → Option Int) (query : String) (minMessages : Nat)
    (dr : Option DateRange) (ps : Option (List String)) (t : EmailThread) : Prop :=
  minMessages ≤ t.messageCount
  ∧ datePassB pd dr t = true
  ∧ participantsPassB ps t = true
  ∧ (queryTermsL query = []
     ∨ ∃ m ∈ t.messages, ∀ term ∈ queryTermsL query,
         term <:+: ((m.subject.data ++ m.fromAddr.data ++ m.toAddr.data
           ++ (m.body.plain.getD "").data).map Char.toLower))

/-- Retention predicate amended to the code: the searchable text joins the four
fields with single spaces (the template literal `${a} ${b} ${c} ${d}`), so a
term may not straddle a field boundary. -/
def RetainAmendedC3 (pd : String → Option Int) (query : String) (minMessages : Nat)
    (dr : Option DateRange) (ps : Option (List String)) (t : EmailThread) : Prop :=
  minMessages ≤ t.messageCount
  ∧ datePassB pd dr t = true
  ∧ participantsPassB ps t = true
  ∧ (queryTermsL query = []
     ∨ ∃ m ∈ t.messages, ∀ term ∈ queryTermsL query, term <:+: searchTextL m)

instance (pd query minMessages dr ps t) :
    Decidable (RetainClaimC3 pd query minMessages dr ps t) := by
  unfold RetainClaimC3
  infer_instance

instance (pd query minMessages dr ps t) :
    Decidable (RetainAmendedC3 pd query minMessages dr ps t) := by
  unfold RetainAmendedC3
  infer_instance

/-- Constantly invalid date parser (no date string parses). -/
def pdNone : String → Option Int := fun _ => none

/-- Message whose subject is "ab" and from-header "cd": the term "bc" occurs in
the plain concatenation "abcd" but not in the space-separated searchable text
"ab cd ". -/
def cexMsgC3 : EmailData :=
  { id := "m1", threadId := "T1", subject := "ab", fromAddr := "cd", toAddr := "", date := ""
    body := { plain := none, html := none }, attachments := [] }

def cexThreadC3 : EmailThread :=
  { threadId := "T1", subject := "ab", participants := [], startDate := "", endDate := ""
    messageCount := 1, messages := [cexMsgC3] }

/-- Claim C3, counterexample: with query "bc" the retention rules of the claim all
hold for `cexThreadC3` (the term "bc" is contained in the plain concatenation
"abcd" of subject, from, to and body), yet `filterThreads` drops the thread,
because the code separates the fields with spaces ("ab cd  " does not contain
"bc").  So "retains exactly when the rules hold" fails as stated. -/
theorem filterThreads_concat_cex :
    RetainClaimC3 pdNone "bc" 1 none none cexThreadC3
    ∧ filterThreads pdNone [cexThreadC3] "bc" 1 none none = [] := by
  constructor
  · decide
  · decide

/-- Claim C3, amended: `filterThreads` retains exactly the threads satisfying
all rules, with the content rule reading each term against the lower-cased,
space-separated concatenation of subject, from, to and plain body of a single
message (conjunctive within one message); surviving threads keep their input
order (the result is a sublist of the input). -/
theorem filterThreads_spec (pd : String → Option Int) (threads : List EmailThread)
    (query : String) (minMessages : Nat) (dr : Option DateRange) (ps : Option (List String)) :
      filterThreads pd threads query minMessages dr ps
        = threads.filter (fun t => decide (RetainAmendedC3 pd query minMessages dr ps t))
    ∧ (filterThreads pd threads query minMessages dr ps).Sublist threads := by
  constructor
  · unfold filterThreads
    apply List.filter_congr
    intro t _
    rw [Bool.eq_iff_iff]
    simp only [Bool.and_eq_true, decide_eq_true_eq]
    unfold RetainAmendedC3
    constructor
    · rintro ⟨⟨⟨h1, h2⟩, h3⟩, h4⟩
      refine ⟨h1, h2, h3, ?_⟩
      by_cases hq : queryTermsL query = []
      · exact Or.inl hq
      · right
        unfold contentPassB at h4
        rw [if_neg (by simpa using hq)] at h4
        rcases List.any_eq_true.mp h4 with ⟨m, hm, hall⟩
        exact ⟨m, hm, fun term ht => (containsL_iff _ _).mp (List.all_eq_true.mp hall term ht)⟩
    · rintro ⟨h1, h2, h3, h4⟩
      refine ⟨⟨⟨h1, h2⟩, h3⟩, ?_⟩
      unfold contentPassB
      rcases h4 with hq | ⟨m, hm, hall⟩
      · rw [if_pos (by simpa using hq)]
      · by_cases hq : queryTermsL query = []
        · rw [if_pos (by simpa using hq)]
        · rw [if_neg (by simpa using hq)]
          exact List.any_eq_true.mpr
            ⟨m, hm, List.all_eq_true.mpr fun term ht => (containsL_iff _ _).mpr (hall term ht)⟩
  · exact List.filter_sublist threads

/-! ## Claim C10 -/

/-- Claim C10: in `filterThreads`, comparisons against an invalid parsed date
are false, so a thread whose `endDate` does not parse is never excluded by the
`dateRange.from` rule, a thread whose `startDate` does not parse is never
excluded by the `dateRange.to` rule, a thread with both boundary dates invalid
passes the date-range test outright, and a list of such threads is filtered
identically with any window and with none. -/
theorem filterThreads_invalid_dates (pd : String → Option Int) (dr : Option DateRange) :
      (∀ t : EmailThread, pd t.endDate = none → ∀ f, dateLtB pd t.endDate f = false)
    ∧ (∀ t : EmailThread, pd t.startDate = none → ∀ g, dateGtB pd t.startDate g = false)
    ∧ (∀ t : EmailThread, pd t.endDate = none → pd t.startDate = none →
        datePassB pd dr t = true)
    ∧ (∀ (threads : List EmailThread) (query : String) (minMessages : Nat)
        (ps : Option (List String)),
        (∀ t ∈ threads, pd t.endDate = none ∧ pd t.startDate = none) →
        filterThreads pd threads query minMessages dr ps
          = filterThreads pd threads query minMessages none ps) := by
  have hlt : ∀ t : EmailThread, pd t.endDate = none → ∀ f, dateLtB pd t.endDate f = false := by
    intro t h f
    unfold dateLtB
    rw [h]
  have hgt : ∀ t : EmailThread, pd t.startDate = none → ∀ g, dateGtB pd t.startDate g = false := by
    intro t h g
    unfold dateGtB
    rw [h]
  have hpass : ∀ t : EmailThread, pd t.endDate = none → pd t.startDate = none →
      datePassB pd dr t = true := by
    intro t hend hstart
    unfold datePassB
    cases dr with
    | none => rfl
    | some r =>
      show (!((match r.fromD with
          | some f => dateLtB pd t.endDate f
          | none => false)
        || (match r.toD with
            | some g => dateGtB pd t.startDate g
            | none => false))) = true
      have h1 : (match r.fromD with
          | some f => dateLtB pd t.endDate f
          | none => false) = false := by
        cases r.fromD with
        | none => rfl
        | some f => exact hlt t hend f
      have h2 : (match r.toD with
          | some g => dateGtB pd t.startDate g
          | none => false) = false := by
        cases r.toD with
        | none => rfl
        | some g => exact hgt t hstart g
      rw [h1, h2]
      rfl
  refine ⟨hlt, hgt, hpass, ?_⟩
  intro threads query minMessages ps hall
  unfold filterThreads
  apply List.filter_congr
  intro t ht
  rw [hpass t (hall t ht).1 (hall t ht).2]
  have : datePassB pd none t = true := rfl
  rw [this]

/-! ## Thread text rendering (`ThreadParser.generateThreadText`) -/

/-- One message block of the thread transcript. -/
def messageBlockText (idx : Nat) (m : EmailData) : String :=
  "--- Message " ++ toString (idx + 1) ++ " ---\n"
  ++ "From: " ++ m.fromAddr ++ "\n"
  ++ "Date: " ++ m.date ++ "\n"
  ++ "Subject: " ++ m.subject ++ "\n\n"
  ++ (if strTruthy m.body.plain then trimStr (m.body.plain.getD "") ++ "\n\n"
      else if strTruthy m.body.html then "[HTML Content Available]\n\n"
      else "[No Content Available]\n\n")

/-- Model of `ThreadParser.generateThreadText` (src/utils/threads). -/
def generateThreadText (thread : EmailThread) : String :=
  "Thread: " ++ thread.subject ++ "\n"
  ++ "Participants: " ++ joinSep ", " thread.participants ++ "\n"
  ++ "Date Range: " ++ thread.startDate ++ " to " ++ thread.endDate ++ "\n"
  ++ "Message Count: " ++ toString thread.messageCount ++ "\n\n"
  ++ String.join (thread.messages.enum.map fun p => messageBlockText p.1 p.2)

/-! ## Analysis prompt and response parsing (`ThreadAnalyzer`) -/

/-- Model of `ThreadAnalyzer.createAnalysisPrompt` (src/utils/analysis). -/
def createAnalysisPrompt (threadText query : String) : String :=
  "\nPlease analyze the following email thread and extract key information related to this query: \""
  ++ query ++ "\"\n\n" ++ threadText
  ++ "\n\nFormat your response as follows:\n"
  ++ "SUMMARY: Provide a brief 1-2 sentence summary of the thread.\n"
  ++ "TOPICS: List 3-5 main topics discussed in the thread, comma-separated.\n"
  ++ "RELEVANCE_SCORE: Provide a score from 0-100 indicating how relevant this thread is to the query.\n"
  ++ "SENTIMENT: Provide a brief assessment of the overall sentiment (positive, negative, neutral).\n"
  ++ "KEY_INSIGHTS: List 3-5 key insights from this thread related to the query, each on a new line starting with \"-\".\n"

/-- Split a character list at the first occurrence of `pat`, returning the
part before the occurrence and the part after it. -/
def splitFirst (pat : List Char) : List Char → Option (List Char × List Char)
  | [] => if pat.isEmpty then some ([], []) else none
  | c :: rest =>
    if isPrefixL pat (c :: rest) then some ([], (c :: rest).drop pat.length)
    else
      match splitFirst pat rest with
      | some (pre, post) => some (c :: pre, post)
      | none => none

/-- Model of the section regexes `/LABEL:(.*?)(?:STOP:|$)/s`: the text between
the first occurrence of `label` and the next occurrence of `stop` after it (or
the end of the string), `none` when `label` does not occur. -/
def matchSection (label stop : String) (text : String) : Option String :=
  match splitFirst label.data text.data with
  | none => none
  | some (_, tail) =>
    match splitFirst stop.data tail with
    | some (mid, _) => some ⟨mid⟩
    | none => some ⟨tail⟩

/-- Model of `/KEY_INSIGHTS:(.*?)$/s`: everything after the first occurrence of
`label`. -/
def matchToEnd (label : String) (text : String) : Option String :=
  match splitFirst label.data text.data with
  | none => none
  | some (_, tail) => some ⟨tail⟩

/-- Model of `line.replace(/^-\s*/, '')`. -/
def stripBullet (l : List Char) : List Char :=
  match l with
  | '-' :: rest => rest.dropWhile Char.isWhitespace
  | _ => l

/-- Model of `ThreadAnalyzer.parseAnalysisResponse` (src/utils/analysis). -/
def parseAnalysisResponse (analysisText : String) (thread : EmailThread) :
    ThreadAnalysisResult :=
  let summary := ((matchSection "SUMMARY:" "TOPICS:" analysisText).map trimStr).getD ""
  let topicsStr := ((matchSection "TOPICS:" "RELEVANCE_SCORE:" analysisText).map trimStr).getD ""
  let topics := ((splitOnCharL ',' topicsStr.data).map fun t => (⟨trimL t⟩ : String)).filter
    fun t => decide (t ≠ "")
  let relevanceStr :=
    ((matchSection "RELEVANCE_SCORE:" "SENTIMENT:" analysisText).map trimStr).getD "0"
  let relevanceScore := (jsParseInt relevanceStr).getD 0
  let sentiment := ((matchSection "SENTIMENT:" "KEY_INSIGHTS:" analysisText).map trimStr).getD ""
  let sentimentScore : Option Int :=
    if containsL "positive".data (strToLower sentiment).data then some 1
    else if containsL "negative".data (strToLower sentiment).data then some (-1)
    else if containsL "neutral".data (strToLower sentiment).data then some 0
    else none
  let insightsStr := ((matchToEnd "KEY_INSIGHTS:" analysisText).map trimStr).getD ""
  let keyInsights := ((splitOnCharL '\n' insightsStr.data).map
    fun line => (⟨trimL (stripBullet line)⟩ : String)).filter fun l => decide (l ≠ "")
  { threadId := thread.threadId, subject := thread.subject, summary := summary
    topics := topics, relevanceScore := relevanceScore, sentimentScore := sentimentScore
    keyInsights := keyInsights }

/-- Degraded result returned by the `catch` branch of `analyzeThread`
(`sentimentScore` is simply absent there). -/
def degradedResult (thread : EmailThread) : ThreadAnalysisResult :=
  { threadId := thread.threadId, subject := thread.subject
    summary := "Error analyzing this thread.", topics := [], relevanceScore := 0
    sentimentScore := none, keyInsights := [] }

/-- Model of `ThreadAnalyzer.analyzeThread`: build the prompt, call the
external completion capability, parse the response content (`|| ''` on a null
content), and on a thrown error return the degraded result instead of
propagating. -/
def analyzeThread (complete : String → Except Unit (Option String)) (thread : EmailThread)
    (query : String) : ThreadAnalysisResult :=
  match complete (createAnalysisPrompt (generateThreadText thread) query) with
  | .ok content => parseAnalysisResponse (content.getD "") thread
  | .error _ => degradedResult thread

/-- The batch slices `threads.slice(i, i + concurrency)` of the batching loop
of `analyzeThreads`.  The JS loop does not terminate when `concurrency = 0`;
the `c = 0` branch here is unreachable under the positivity hypothesis the
theorems carry. -/
def batches (c : Nat) : List α → List (List α)
  | [] => []
  | x :: xs =>
    if _h : c = 0 then []
    else (x :: xs).take c :: batches c ((x :: xs).drop c)
termination_by l => l.length
decreasing_by
  simp only [List.length_drop, List.length_cons]
  omega

/-- Comparator of the final sort of `analyzeThreads`:
`(a, b) => b.relevanceScore - a.relevanceScore` as a boolean `cmp ≤ 0`
relation (descending by `relevanceScore`). -/
def relevanceDescLeB (a b : ThreadAnalysisResult) : Bool :=
  decide (b.relevanceScore ≤ a.relevanceScore)

/-- Model of `ThreadAnalyzer.analyzeThreads`: analyze the batches in order,
concatenate the batch results, and sort descending by relevance score. -/
def analyzeThreads (complete : String → Except Unit (Option String))
    (threads : List EmailThread) (query : String) (concurrency : Nat) :
    List ThreadAnalysisResult :=
  jsSort relevanceDescLeB
    (((batches concurrency threads).map fun b =>
      b.map fun t => analyzeThread complete t query).flatten)

theorem batches_flatten (c : Nat) (hc : 0 < c) :
    ∀ l : List α, (batches c l).flatten = l
  | [] => by simp [batches]
  | x :: xs => by
    rw [batches, dif_neg (Nat.pos_iff_ne_zero.mp hc)]
    rw [List.flatten_cons, batches_flatten c hc ((x :: xs).drop c)]
    exact List.take_append_drop c (x :: xs)
termination_by l => l.length
decreasing_by
  simp only [List.length_drop, List.length_cons]
  omega

theorem analyzeThread_threadId (complete : String → Except Unit (Option String))
    (thread : EmailThread) (query : String) :
    (analyzeThread complete thread query).threadId = thread.threadId := by
  unfold analyzeThread
  cases complete (createAnalysisPrompt (generateThreadText thread) query) with
  | ok content => rfl
  | error e => rfl

/-! ## Claim C4 -/

/-- Claim C4: when the completion call throws, `analyzeThread` does not
propagate the failure: it returns the degraded result with summary
"Error analyzing this thread.", empty topics and insights, relevance 0, no
sentiment score, and the `threadId` and `subject` of the input thread. -/
theorem analyzeThread_error_degrades (complete : String → Except Unit (Option String))
    (thread : EmailThread) (query : String) (e : Unit)
    (h : complete (createAnalysisPrompt (generateThreadText thread) query) = .error e) :
    analyzeThread complete thread query
      = { threadId := thread.threadId, subject := thread.subject
          summary := "Error analyzing this thread.", topics := [], relevanceScore := 0
          sentimentScore := none, keyInsights := [] } := by
  unfold analyzeThread
  rw [h]
  rfl

/-! ## Claim C5 -/

/-- Claim C5: for a positive concurrency bound (the JS batching loop does not
terminate at all for `concurrency = 0`), `analyzeThreads` yields exactly one
result per input thread — the result `threadId`s are a permutation of the
input `threadId`s, with equal multiplicities and equal length — and the result
list is sorted descending by `relevanceScore`. -/
theorem analyzeThreads_results (complete : String → Except Unit (Option String))
    (threads : List EmailThread) (query : String) (c : Nat) (hc : 0 < c) :
      ((analyzeThreads complete threads query c).map (·.threadId)).Perm
        (threads.map (·.threadId))
    ∧ (∀ s : String, ((analyzeThreads complete threads query c).map (·.threadId)).count s
        = (threads.map (·.threadId)).count s)
    ∧ (analyzeThreads complete threads query c).length = threads.length
    ∧ (analyzeThreads complete threads query c).Pairwise
        (fun a b => b.relevanceScore ≤ a.relevanceScore) := by
  have hflat : ((batches c threads).map fun b =>
      b.map fun t => analyzeThread complete t query).flatten
      = threads.map fun t => analyzeThread complete t query := by
    rw [← List.map_flatten, batches_flatten c hc]
  have hperm : (analyzeThreads complete threads query c).Perm
      (threads.map fun t => analyzeThread complete t query) := by
    unfold analyzeThreads
    rw [hflat]
    exact jsSort_perm _ _
  have htid : ((threads.map fun t => analyzeThread complete t query).map (·.threadId))
      = threads.map (·.threadId) := by
    rw [List.map_map]
    exact List.map_congr_left fun t _ => analyzeThread_threadId complete t query
  have hpermtid : ((analyzeThreads complete threads query c).map (·.threadId)).Perm
      (threads.map (·.threadId)) := htid ▸ hperm.map (·.threadId)
  refine ⟨hpermtid, fun s => hpermtid.count_eq s, ?_, ?_⟩
  · rw [hperm.length_eq, List.length_map]
  · have hpw := pairwise_jsSort relevanceDescLeB
      (((batches c threads).map fun b => b.map fun t => analyzeThread complete t query).flatten)
      (by
        intro a _ b _
        rcases le_total b.relevanceScore a.relevanceScore with hab | hba
        · exact Or.inl (decide_eq_true hab)
        · exact Or.inr (decide_eq_true hba))
      (by
        intro a _ b _ c' _ hab hbc
        exact decide_eq_true (le_trans (of_decide_eq_true hbc) (of_decide_eq_true hab)))
    exact hpw.imp fun h => of_decide_eq_true h

/-! ## Section extraction lemmas -/

theorem splitFirst_none_iff (pat : List Char) :
    ∀ l : List Char, splitFirst pat l = none ↔ containsL pat l = false := by
  intro l
  induction l with
  | nil =>
    by_cases hp : pat.isEmpty
    · simp [splitFirst, containsL, hp]
    · simp [splitFirst, containsL, hp]
  | cons c rest ih =>
    by_cases hp : isPrefixL pat (c :: rest) = true
    · simp [splitFirst, containsL, hp]
    · simp only [Bool.not_eq_true] at hp
      cases h : splitFirst pat rest with
      | none =>
        have hcr := ih.mp h
        simp [splitFirst, containsL, hp, h, hcr]
      | some pr =>
        have hct : containsL pat rest = true := by
          rcases Bool.eq_false_or_eq_true (containsL pat rest) with ht | hf
          · exact ht
          · exact absurd (ih.mpr hf) (by simp [h])
        simp [splitFirst, containsL, hp, h, hct]

theorem matchSection_eq_none (label stop text : String) (h : substrB label text = false) :
    matchSection label stop text = none := by
  unfold matchSection
  rw [(splitFirst_none_iff label.data text.data).mpr h]

theorem matchToEnd_eq_none (label text : String) (h : substrB label text = false) :
    matchToEnd label text = none := by
  unfold matchToEnd
  rw [(splitFirst_none_iff label.data text.data).mpr h]

theorem parse_summary_eq (text : String) (th : EmailThread) :
    (parseAnalysisResponse text th).summary
      = ((matchSection "SUMMARY:" "TOPICS:" text).map trimStr).getD "" := rfl

theorem parse_topics_eq (text : String) (th : EmailThread) :
    (parseAnalysisResponse text th).topics
      = ((splitOnCharL ','
          (((matchSection "TOPICS:" "RELEVANCE_SCORE:" text).map trimStr).getD "").data).map
            fun t => (⟨trimL t⟩ : String)).filter fun t => decide (t ≠ "") := rfl

theorem parse_relevance_eq (text : String) (th : EmailThread) :
    (parseAnalysisResponse text th).relevanceScore
      = (jsParseInt
          (((matchSection "RELEVANCE_SCORE:" "SENTIMENT:" text).map trimStr).getD "0")).getD 0 :=
  rfl

theorem parse_sentiment_eq (text : String) (th : EmailThread) :
    (parseAnalysisResponse text th).sentimentScore
      = (if containsL "positive".data
            (strToLower (((matchSection "SENTIMENT:" "KEY_INSIGHTS:" text).map trimStr).getD "")).data
          then some 1
        else if containsL "negative".data
            (strToLower (((matchSection "SENTIMENT:" "KEY_INSIGHTS:" text).map trimStr).getD "")).data
          then some (-1)
        else if containsL "neutral".data
            (strToLower (((matchSection "SENTIMENT:" "KEY_INSIGHTS:" text).map trimStr).getD "")).data
          then some 0
        else none) := rfl

theorem relevance_of_section (text : String) (th : EmailThread) (s : String)
    (hs : matchSection "RELEVANCE_SCORE:" "SENTIMENT:" text = some s) :
    (parseAnalysisResponse text th).relevanceScore = (jsParseInt (trimStr s)).getD 0 := by
  rw [parse_relevance_eq, hs]
  rfl

theorem sentiment_of_section (text : String) (th : EmailThread) (s : String)
    (hs : matchSection "SENTIMENT:" "KEY_INSIGHTS:" text = some s) :
    (parseAnalysisResponse text th).sentimentScore
      = (if substrB "positive" (strToLower (trimStr s)) then some 1
         else if substrB "negative" (strToLower (trimStr s)) then some (-1)
         else if substrB "neutral" (strToLower (trimStr s)) then some 0
         else none) := by
  rw [parse_sentiment_eq, hs]
  rfl

theorem parse_insights_eq (text : String) (th : EmailThread) :
    (parseAnalysisResponse text th).keyInsights
      = ((splitOnCharL '\n' (((matchToEnd "KEY_INSIGHTS:" text).map trimStr).getD "").data).map
          fun line => (⟨trimL (stripBullet line)⟩ : String)).filter fun l => decide (l ≠ "") := rfl

/-! ## Claim C6 -/

/-- Claim C6: the response parser yields the documented defaults for missing or
malformed sections (summary empty, topics empty, relevance 0 — also on a
non-numeric score —, sentiment absent, insights empty), and maps the SENTIMENT
section text by case-insensitive substring match checked as positive (1),
negative (-1), neutral (0), first match winning, anything else absent. -/
theorem parseAnalysisResponse_defaults (text : String) (thread : EmailThread) :
      (substrB "SUMMARY:" text = false → (parseAnalysisResponse text thread).summary = "")
    ∧ (substrB "TOPICS:" text = false → (parseAnalysisResponse text thread).topics = [])
    ∧ (substrB "RELEVANCE_SCORE:" text = false →
        (parseAnalysisResponse text thread).relevanceScore = 0)
    ∧ (∀ s, matchSection "RELEVANCE_SCORE:" "SENTIMENT:" text = some s →
        jsParseInt (trimStr s) = none →
        (parseAnalysisResponse text thread).relevanceScore = 0)
    ∧ (substrB "SENTIMENT:" text = false →
        (parseAnalysisResponse text thread).sentimentScore = none)
    ∧ (substrB "KEY_INSIGHTS:" text = false →
        (parseAnalysisResponse text thread).keyInsights = [])
    ∧ (∀ s, matchSection "SENTIMENT:" "KEY_INSIGHTS:" text = some s →
          (substrB "positive" (strToLower (trimStr s)) = true →
            (parseAnalysisResponse text thread).sentimentScore = some 1)
        ∧ (substrB "positive" (strToLower (trimStr s)) = false →
            substrB "negative" (strToLower (trimStr s)) = true →
            (parseAnalysisResponse text thread).sentimentScore = some (-1))
        ∧ (substrB "positive" (strToLower (trimStr s)) = false →
            substrB "negative" (strToLower (trimStr s)) = false →
            substrB "neutral" (strToLower (trimStr s)) = true →
            (parseAnalysisResponse text thread).sentimentScore = some 0)
        ∧ (substrB "positive" (strToLower (trimStr s)) = false →
            substrB "negative" (strToLower (trimStr s)) = false →
            substrB "neutral" (strToLower (trimStr s)) = false →
            (parseAnalysisResponse text thread).sentimentScore = none)) := by
  refine ⟨?_, ?_, ?_, ?_, ?_, ?_, ?_⟩
  · intro h
    rw [parse_summary_eq, matchSection_eq_none _ _ _ h]
    rfl
  · intro h
    rw [parse_topics_eq, matchSection_eq_none _ _ _ h]
    decide
  · intro h
    rw [parse_relevance_eq, matchSection_eq_none _ _ _ h]
    decide
  · intro s hs hn
    rw [relevance_of_section text thread s hs, hn]
    rfl
  · intro h
    rw [parse_sentiment_eq, matchSection_eq_none _ _ _ h]
    decide
  · intro h
    rw [parse_insights_eq, matchToEnd_eq_none _ _ h]
    decide
  · intro s hs
    refine ⟨?_, ?_, ?_, ?_⟩
    · intro hpos
      rw [sentiment_of_section text thread s hs, if_pos hpos]
    · intro hpos hneg
      rw [sentiment_of_section text thread s hs, if_neg (by simp [hpos]), if_pos hneg]
    · intro hpos hneg hneu
      rw [sentiment_of_section text thread s hs, if_neg (by simp [hpos]),
        if_neg (by simp [hneg]), if_pos hneu]
    · intro hpos hneg hneu
      rw [sentiment_of_section text thread s hs, if_neg (by simp [hpos]),
        if_neg (by simp [hneg]), if_neg (by simp [hneu])]

/-! ## Claim C9 -/

/-- Sample thread used as the second argument of the parser in witnesses and
counterexamples; the parser only reads its `threadId` and `subject`. -/
def sampleThread : EmailThread :=
  { threadId := "T2", subject := "Budget", participants := ["a@x.com"], startDate := "1"
    endDate := "2", messageCount := 1
    messages := [{ id := "m2", threadId := "T2", subject := "Budget", fromAddr := "a@x.com"
                   toAddr := "b@x.com", date := "1"
                   body := { plain := some "hello", html := none }, attachments := [] }] }

/-- Claim C9, counterexample: the parser does not clamp the relevance score to
0–100; the section texts "150" and "-5" are passed through as parsed. -/
theorem parseAnalysisResponse_range_cex :
      (parseAnalysisResponse "RELEVANCE_SCORE: 150" sampleThread).relevanceScore = 150
    ∧ ¬ ((parseAnalysisResponse "RELEVANCE_SCORE: 150" sampleThread).relevanceScore ≤ 100)
    ∧ (parseAnalysisResponse "RELEVANCE_SCORE: -5" sampleThread).relevanceScore = -5
    ∧ (parseAnalysisResponse "RELEVANCE_SCORE: -5" sampleThread).relevanceScore < 0 := by
  refine ⟨by decide, by decide, by decide, by decide⟩

/-- Claim C9, amended: `relevanceScore` defaults to 0 when the section is
missing or its text does not parse as an integer, and otherwise passes the
parsed integer through unclamped (so values outside 0–100 can occur). -/
theorem parseAnalysisResponse_relevance (text : String) (thread : EmailThread) :
      (matchSection "RELEVANCE_SCORE:" "SENTIMENT:" text = none →
        (parseAnalysisResponse text thread).relevanceScore = 0)
    ∧ (∀ s, matchSection "RELEVANCE_SCORE:" "SENTIMENT:" text = some s →
        jsParseInt (trimStr s) = none →
        (parseAnalysisResponse text thread).relevanceScore = 0)
    ∧ (∀ s n, matchSection "RELEVANCE_SCORE:" "SENTIMENT:" text = some s →
        jsParseInt (trimStr s) = some n →
        (parseAnalysisResponse text thread).relevanceScore = n) := by
  refine ⟨?_, ?_, ?_⟩
  · intro h
    rw [parse_relevance_eq, h]
    decide
  · intro s hs hn
    rw [relevance_of_section text thread s hs, hn]
    rfl
  · intro s n hs hn
    rw [relevance_of_section text thread s hs, hn]
    rfl

/-! ## Court-document assembly (inline in `generateCourtDocument`,
src/generate-court-doc.ts)

The generation timestamp `new Date().toISOString()` and the locale date
formatting `new Date(d).toLocaleString()` are modelled by the parameters `now`
and `fmtDate`.  The per-thread analyzer call (`await analyzer.analyzeThread`
inside `try`/`catch`) is modelled by an optional function into `Except`:
`none` when no API key is configured, `Except.error` when the call throws. -/

/-- The fixed legal disclaimer footer. -/
def disclaimer : String :=
  "## LEGAL DISCLAIMER\n\n"
  ++ "This document was automatically generated and contains email evidence in a format suitable for "
  ++ "legal proceedings. All timestamps are shown in the local timezone at the time of document generation. "
  ++ "The content of the emails has not been altered from the original sources. "
  ++ "Any analysis provided is generated automatically and should be verified by qualified legal professionals.\n"

/-- The document header with generation timestamp and totals. -/
def docHeader (now : String) (emailCount threadCount : Nat) : String :=
  ("# EMAIL EVIDENCE DOCUMENT\n\n**Generated:** " ++ now)
  ++ ("\n**Total Emails:** "
      ++ (toString emailCount ++ ("\n**Total Threads:** " ++ (toString threadCount ++ "\n\n"))))

def attachmentsBlock (atts : List Attachment) : String :=
  if atts.isEmpty then ""
  else "**Attachments (" ++ toString atts.length ++ "):**\n"
    ++ String.join (atts.map fun a => "- " ++ a.filename ++ " (" ++ a.mimeType ++ ")\n")
    ++ "\n"

def messageSection (fmtDate : String → String) (j : Nat) (email : EmailData) : String :=
  "#### MESSAGE " ++ toString (j + 1) ++ "\n\n"
  ++ "**Email ID:** " ++ email.id ++ "\n"
  ++ "**From:** " ++ email.fromAddr ++ "\n"
  ++ "**To:** " ++ email.toAddr ++ "\n"
  ++ "**Date:** " ++ fmtDate email.date ++ "\n"
  ++ "**Subject:** " ++ email.subject ++ "\n"
  ++ "\n**Content:**\n\n"
  ++ "```\n"
  ++ (if strTruthy email.body.plain then email.body.plain.getD ""
      else "[No plain text content available]")
  ++ "\n```\n\n"
  ++ attachmentsBlock email.attachments
  ++ "---\n\n"

/-- The analysis subsection: absent without an analyzer; on a successful
analysis the summary, comma-joined topics and bulleted insights; on a thrown
analyzer call the explicit unavailability marker. -/
def analysisBlockSome (f : EmailThread → Except Unit ThreadAnalysisResult)
    (thread : EmailThread) : String :=
  match f thread with
  | .ok a =>
    "### THREAD ANALYSIS\n\n"
    ++ "**Summary:** " ++ a.summary ++ "\n"
    ++ "**Key Topics:** " ++ joinSep ", " a.topics ++ "\n"
    ++ "**Key Insights:**\n"
    ++ String.join (a.keyInsights.map fun insight => "- " ++ insight ++ "\n")
    ++ "\n"
  | .error _ => "### THREAD ANALYSIS\n\n" ++ "*Analysis unavailable*\n\n"

def analysisBlock (analyzer : Option (EmailThread → Except Unit ThreadAnalysisResult))
    (thread : EmailThread) : String :=
  match analyzer with
  | none => ""
  | some f => analysisBlockSome f thread

def threadMeta (fmtDate : String → String) (i : Nat) (thread : EmailThread) : String :=
  "## THREAD " ++ toString (i + 1) ++ ": " ++ thread.subject ++ "\n\n"
  ++ "**Thread ID:** " ++ thread.threadId ++ "\n"
  ++ "**Date Range:** " ++ fmtDate thread.startDate ++ " to " ++ fmtDate thread.endDate ++ "\n"
  ++ "**Participants:** " ++ joinSep ", " thread.participants ++ "\n"
  ++ "**Message Count:** " ++ toString thread.messageCount ++ "\n\n"

def messagesBlock (fmtDate : String → String) (thread : EmailThread) : String :=
  "### EMAIL MESSAGES\n\n"
  ++ String.join (thread.messages.enum.map fun p => messageSection fmtDate p.1 p.2)

def threadSection (fmtDate : String → String)
    (analyzer : Option (EmailThread → Except Unit ThreadAnalysisResult))
    (i : Nat) (thread : EmailThread) : String :=
  threadMeta fmtDate i thread ++ analysisBlock analyzer thread ++ messagesBlock fmtDate thread

/-- The `for` loop over threads, accumulating one section per thread. -/
def threadSections (fmtDate : String → String)
    (analyzer : Option (EmailThread → Except Unit ThreadAnalysisResult)) :
    Nat → List EmailThread → String
  | _, [] => ""
  | i, t :: ts => threadSection fmtDate analyzer i t ++ threadSections fmtDate analyzer (i + 1) ts

/-- The Markdown document body: header, one section per thread in the given
order, and the legal disclaimer footer. -/
def assembleBody (now : String) (fmtDate : String → String) (emails : List EmailData)
    (threads : List EmailThread)
    (analyzer : Option (EmailThread → Except Unit ThreadAnalysisResult)) : String :=
  docHeader now emails.length threads.length
    ++ threadSections fmtDate analyzer 0 threads ++ disclaimer

/-- Model of `generateCourtDocument`: on an empty email list the script prints
an error and calls `process.exit(1)` (modelled as `Except.error`); otherwise it
groups the emails and assembles the document body. -/
def generateCourtDocument (pd : String → Option Int) (now : String)
    (fmtDate : String → String)
    (analyzer : Option (EmailThread → Except Unit ThreadAnalysisResult))
    (emails : List EmailData) : Except Unit String :=
  if emails.isEmpty then .error ()
  else .ok (assembleBody now fmtDate emails (groupEmailsByThread pd emails) analyzer)

/-! ## Infix helpers on character lists -/

theorem infix_append_of_right (l₁ l₂ l₃ : List α) (h : l₁ <:+: l₂) : l₁ <:+: l₃ ++ l₂ := by
  rcases h with ⟨s, t, rfl⟩
  exact ⟨l₃ ++ s, t, by simp⟩

theorem infix_append_of_left (l₁ l₂ l₃ : List α) (h : l₁ <:+: l₂) : l₁ <:+: l₂ ++ l₃ := by
  rcases h with ⟨s, t, rfl⟩
  exact ⟨s, t ++ l₃, by simp⟩

/-! ## Claim C7 -/

set_option maxRecDepth 16384 in
/-- Claim C7, counterexample: on an empty email list `generateCourtDocument`
refuses to produce a document (the script exits with an error), and even the
assembly body does not contain the literal "Total Emails: 0" of the claim — the
emitted Markdown marker is "**Total Emails:** 0". -/
theorem generateCourtDocument_empty_cex :
      generateCourtDocument pdNone "2025-01-01T00:00:00.000Z" (fun s => s) none [] = .error ()
    ∧ substrB "Total Emails: 0"
        (assembleBody "2025-01-01T00:00:00.000Z" (fun s => s) [] [] none) = false := by
  constructor
  · rfl
  · decide

/-- Claim C7, amended: `groupEmailsByThread []` is `[]`; `generateCourtDocument`
on an empty email list exits with an error instead of producing a document; and
the assembly body applied to empty inputs consists of exactly the zero-count
header ("**Total Emails:** 0", "**Total Threads:** 0") followed by the fixed
legal disclaimer, with no thread sections. -/
theorem generateCourtDocument_empty (pd : String → Option Int) (now : String)
    (fmtDate : String → String) :
      groupEmailsByThread pd [] = []
    ∧ generateCourtDocument pd now fmtDate none [] = .error ()
    ∧ assembleBody now fmtDate [] [] none
        = ("# EMAIL EVIDENCE DOCUMENT\n\n**Generated:** " ++ now)
          ++ "\n**Total Emails:** 0\n**Total Threads:** 0\n\n" ++ disclaimer := by
  refine ⟨rfl, rfl, ?_⟩
  show docHeader now 0 0 ++ threadSections fmtDate none 0 [] ++ disclaimer = _
  rw [show threadSections fmtDate none 0 [] = "" from rfl, String.append_empty]
  unfold docHeader
  rw [show (toString (0 : Nat) ++ ("\n**Total Threads:** " ++ (toString (0 : Nat) ++ "\n\n")))
      = "0\n**Total Threads:** 0\n\n" from rfl]
  rw [show ("\n**Total Emails:** " ++ "0\n**Total Threads:** 0\n\n")
      = "\n**Total Emails:** 0\n**Total Threads:** 0\n\n" from rfl]

/-! ## Claim C8 -/

theorem marker_infix_threadSections (fmtDate : String → String)
    (f : EmailThread → Except Unit ThreadAnalysisResult) (t : EmailThread) (e : Unit)
    (hf : f t = .error e) :
    ∀ (i₀ : Nat) (threads : List EmailThread), t ∈ threads →
      "*Analysis unavailable*".data <:+: (threadSections fmtDate (some f) i₀ threads).data := by
  intro i₀ threads
  induction threads generalizing i₀ with
  | nil => intro h; exact absurd h (List.not_mem_nil t)
  | cons u us ih =>
    intro hmem
    rw [threadSections, String.data_append]
    rcases List.mem_cons.mp hmem with rfl | hus
    · apply infix_append_of_left
      unfold threadSection
      rw [String.data_append, String.data_append]
      apply infix_append_of_left
      apply infix_append_of_right
      show "*Analysis unavailable*".data <:+: (analysisBlockSome f t).data
      unfold analysisBlockSome
      rw [hf]
      rw [show ("### THREAD ANALYSIS\n\n" ++ "*Analysis unavailable*\n\n" : String)
          = ("### THREAD ANALYSIS\n\n" ++ "*Analysis unavailable*") ++ "\n\n" from rfl]
      rw [String.data_append, String.data_append]
      apply infix_append_of_left
      apply infix_append_of_right
      exact List.infix_refl _
    · exact infix_append_of_right _ _ _ (ih i₀.succ hus)

/-- Claim C8: when the analyzer call for a thread throws, the document emits an
explicit "*Analysis unavailable*" marker in place of the analysis subsection
(summary, comma-joined topics, bulleted insights): the section of that thread is its
metadata, then the marker subsection, then the messages; and the assembled
document contains the marker. -/
theorem assembleBody_analysis_unavailable (now : String) (fmtDate : String → String)
    (emails : List EmailData) (threads : List EmailThread)
    (f : EmailThread → Except Unit ThreadAnalysisResult) (t : EmailThread) (e : Unit)
    (ht : t ∈ threads) (hf : f t = .error e) :
      (∀ i, threadSection fmtDate (some f) i t
        = threadMeta fmtDate i t ++ ("### THREAD ANALYSIS\n\n" ++ "*Analysis unavailable*\n\n")
          ++ messagesBlock fmtDate t)
    ∧ substrB "*Analysis unavailable*" (assembleBody now fmtDate emails threads (some f))
        = true := by
  constructor
  · intro i
    show threadMeta fmtDate i t ++ analysisBlockSome f t ++ messagesBlock fmtDate t = _
    unfold analysisBlockSome
    rw [hf]
  · apply (containsL_iff _ _).mpr
    show "*Analysis unavailable*".data <:+: (assembleBody now fmtDate emails threads (some f)).data
    unfold assembleBody
    rw [String.data_append, String.data_append]
    apply infix_append_of_left
    apply infix_append_of_right
    exact marker_infix_threadSections fmtDate f t e hf 0 threads ht

/-! ## Concrete inputs for witnesses -/

def wEmailA : EmailData :=
  { id := "a1", threadId := "TW", subject := "Alpha", fromAddr := "a@x.com"
    toAddr := "b@x.com, c@x.com", date := "2"
    body := { plain := some "first", html := none }, attachments := [] }

def wEmailB : EmailData :=
  { id := "b1", threadId := "TW", subject := "Beta", fromAddr := "b@x.com"
    toAddr := "a@x.com", date := "1"
    body := { plain := none, html := none }, attachments := [] }

def wEmails : List EmailData := [wEmailA, wEmailB]

def wThreads5 : List EmailThread :=
  [sampleThread, { sampleThread with threadId := "T5" }, { sampleThread with threadId := "T6" },
   { sampleThread with threadId := "T7" }, { sampleThread with threadId := "T8" }]

def thInvalid : EmailThread :=
  { threadId := "T4", subject := "", participants := [], startDate := "bad-start"
    endDate := "bad-end", messageCount := 0, messages := [] }

def wWindow : DateRange := { fromD := some "2020-01-01", toD := some "2021-01-01" }

/-! ## Witnesses -/

/-- Witness for claim C2: the hypothesis holds for a concrete date parser
(`jsParseInt`) and a concrete two-message input. -/
theorem groupEmailsByThread_invariants_witness :
    (∀ e ∈ wEmails, (jsParseInt e.date).isSome = true)
    ∧ ((∀ t ∈ groupEmailsByThread jsParseInt wEmails,
          t.messages.Pairwise (fun m₁ m₂ => parsedLe jsParseInt m₁.date m₂.date)
        ∧ t.messages.head?.map (·.date) = some t.startDate
        ∧ t.messages.getLast?.map (·.date) = some t.endDate
        ∧ t.messages.head?.map (·.subject) = some t.subject
        ∧ t.participants.Nodup
        ∧ (∀ p, p ∈ t.participants ↔ ∃ m ∈ t.messages,
            p ∈ extractEmailAddresses m.fromAddr ∨ p ∈ extractEmailAddresses m.toAddr))
      ∧ (groupEmailsByThread jsParseInt wEmails).Pairwise
          (fun t₁ t₂ => parsedLe jsParseInt t₂.endDate t₁.endDate)) :=
  ⟨by decide, groupEmailsByThread_invariants jsParseInt wEmails (by decide)⟩

/-- Witness for claim C4: a completion call that throws, at a concrete thread
and query. -/
theorem analyzeThread_error_degrades_witness :
    (fun _ : String => (Except.error () : Except Unit (Option String)))
        (createAnalysisPrompt (generateThreadText sampleThread) "budget") = Except.error ()
    ∧ analyzeThread (fun _ => Except.error ()) sampleThread "budget"
        = { threadId := sampleThread.threadId, subject := sampleThread.subject
            summary := "Error analyzing this thread.", topics := [], relevanceScore := 0
            sentimentScore := none, keyInsights := [] } :=
  ⟨rfl, analyzeThread_error_degrades (fun _ => Except.error ()) sampleThread "budget" () rfl⟩

/-- Witness for claim C5: concurrency 2 over five concrete threads. -/
theorem analyzeThreads_results_witness :
    0 < 2
    ∧ (((analyzeThreads (fun _ => Except.error ()) wThreads5 "budget" 2).map (·.threadId)).Perm
        (wThreads5.map (·.threadId))
      ∧ (∀ s : String,
          ((analyzeThreads (fun _ => Except.error ()) wThreads5 "budget" 2).map (·.threadId)).count s
          = (wThreads5.map (·.threadId)).count s)
      ∧ (analyzeThreads (fun _ => Except.error ()) wThreads5 "budget" 2).length = wThreads5.length
      ∧ (analyzeThreads (fun _ => Except.error ()) wThreads5 "budget" 2).Pairwise
          (fun a b => b.relevanceScore ≤ a.relevanceScore)) :=
  ⟨by decide, analyzeThreads_results (fun _ => Except.error ()) wThreads5 "budget" 2 (by decide)⟩

/-- Witness for claim C6: a text with no labels yields the default summary, and
a SENTIMENT section containing "Positive" yields score 1. -/
theorem parseAnalysisResponse_defaults_witness :
    substrB "SUMMARY:" "plain text" = false
    ∧ (parseAnalysisResponse "plain text" sampleThread).summary = ""
    ∧ matchSection "SENTIMENT:" "KEY_INSIGHTS:" "SENTIMENT: Positive" = some " Positive"
    ∧ substrB "positive" (strToLower (trimStr " Positive")) = true
    ∧ (parseAnalysisResponse "SENTIMENT: Positive" sampleThread).sentimentScore = some 1 :=
  ⟨by decide,
   (parseAnalysisResponse_defaults "plain text" sampleThread).1 (by decide),
   by decide,
   by decide,
   ((parseAnalysisResponse_defaults "SENTIMENT: Positive" sampleThread).2.2.2.2.2.2
     " Positive" (by decide)).1 (by decide)⟩

/-- Witness for claim C8: a one-thread document whose analyzer call throws
contains the unavailability marker. -/
theorem assembleBody_analysis_unavailable_witness :
    sampleThread ∈ [sampleThread]
    ∧ (fun _ : EmailThread => (Except.error () : Except Unit ThreadAnalysisResult)) sampleThread
        = Except.error ()
    ∧ substrB "*Analysis unavailable*"
        (assembleBody "t" (fun s => s) [] [sampleThread] (some fun _ => Except.error ()))
        = true :=
  ⟨List.mem_cons_self sampleThread [], rfl,
   (assembleBody_analysis_unavailable "t" (fun s => s) [] [sampleThread]
     (fun _ => Except.error ()) sampleThread () (List.mem_cons_self sampleThread []) rfl).2⟩

/-- Witness for claim C9 (amended): a missing section gives 0, a non-numeric
section text gives 0, and a numeric one is passed through. -/
theorem parseAnalysisResponse_relevance_witness :
    matchSection "RELEVANCE_SCORE:" "SENTIMENT:" "no score here" = none
    ∧ (parseAnalysisResponse "no score here" sampleThread).relevanceScore = 0
    ∧ matchSection "RELEVANCE_SCORE:" "SENTIMENT:" "RELEVANCE_SCORE: abc" = some " abc"
    ∧ jsParseInt (trimStr " abc") = none
    ∧ (parseAnalysisResponse "RELEVANCE_SCORE: abc" sampleThread).relevanceScore = 0
    ∧ matchSection "RELEVANCE_SCORE:" "SENTIMENT:" "RELEVANCE_SCORE: 42" = some " 42"
    ∧ jsParseInt (trimStr " 42") = some 42
    ∧ (parseAnalysisResponse "RELEVANCE_SCORE: 42" sampleThread).relevanceScore = 42 :=
  ⟨by decide,
   (parseAnalysisResponse_relevance "no score here" sampleThread).1 (by decide),
   by decide,
   by decide,
   (parseAnalysisResponse_relevance "RELEVANCE_SCORE: abc" sampleThread).2.1
     " abc" (by decide) (by decide),
   by decide,
   by decide,
   (parseAnalysisResponse_relevance "RELEVANCE_SCORE: 42" sampleThread).2.2
     " 42" 42 (by decide) (by decide)⟩

/-- Witness for claim C10: a thread with unparseable boundary dates passes a
concrete date window, and filtering with that window equals filtering with
none. -/
theorem filterThreads_invalid_dates_witness :
    pdNone thInvalid.endDate = none
    ∧ pdNone thInvalid.startDate = none
    ∧ datePassB pdNone (some wWindow) thInvalid = true
    ∧ filterThreads pdNone [thInvalid] "" 0 (some wWindow) none
        = filterThreads pdNone [thInvalid] "" 0 none none :=
  ⟨rfl, rfl,
   (filterThreads_invalid_dates pdNone (some wWindow)).2.2.1 thInvalid rfl rfl,
   (filterThreads_invalid_dates pdNone (some wWindow)).2.2.2 [thInvalid] "" 0 none
     (fun _ _ => ⟨rfl, rfl⟩)⟩

end GThreader
